import Mathlib

/-!
Verification development for the looker-emulator PDT engine (src/pdt.py).

The Python module is shallowly embedded below.  Scalars returned by the
warehouse are modelled by `Value`, the warehouse connection by a pure
function from SQL text to a result set, the pickle-file trigger-value
store by an association list, and every observable side effect (SQL
execution, transaction boundaries, store writes) by an `Event` trace.
Python exceptions are modelled by the `PyError` type; a Python local
variable that may be referenced before assignment is modelled by an
`Option` that starts as `none`.  Recursion depth of the DFS is modelled
by explicit fuel, standing for the Python recursion limit; the fuel is
proved sufficient for the graphs the program builds.
-/

namespace LookerEmulator

/-- Scalar values returned by the warehouse and stored as trigger values. -/
inductive Value where
  | bool (b : Bool)
  | str (s : String)
deriving DecidableEq

/-- Python truthiness of a result cell, as used by `if has_table:`. -/
def truthy : Value → Bool
  | .bool b => b
  | .str s => !s.data.isEmpty

/-- Errors raised by the depth-first topological ordering (pdt.py lines 204-226).
`circularDependency v` models `Exception("Views contain a circular dependency v")`;
`recursionLimit` models exhaustion of the Python recursion limit. -/
inductive TopoError where
  | circularDependency (viewName : String)
  | recursionLimit
deriving DecidableEq

/-- Python exceptions raised by pdt.py, one constructor per raise site or
runtime error kind. -/
inductive PyError where
  | topo (e : TopoError)
  | exceptionMsg (msg : String)
  | keyError (key : String)
  | valueError (msg : String)
  | indexError
  | unboundLocal (var : String)
  | sqlError (msg : String)
deriving DecidableEq

/-- Observable side effects of a run, in order of occurrence. -/
inductive Event where
  | sqlExec (stmt : String)
  | txBegin
  | txCommit
  | txRollback
  | storeWrite (viewName : String) (value : Value)
deriving DecidableEq

/-! ### String helpers (structural recursions over `List Char`, mirroring
Python string primitives used in pdt.py) -/

/-- Python regex whitespace class. -/
def isSpaceChar (c : Char) : Bool :=
  c == ' ' || c == '\t' || c == '\n' || c == '\r' || c == '\x0b' || c == '\x0c'

/-- Length of the maximal whitespace prefix (greedy regex quantifier). -/
def wsCount : List Char → Nat
  | [] => 0
  | c :: rest => if isSpaceChar c then wsCount rest + 1 else 0

/-- Length of the maximal prefix matched by the regex dot: any char except newline. -/
def dotRun : List Char → Nat
  | [] => 0
  | c :: rest => if c == '\n' then 0 else dotRun rest + 1

/-- Python `str.split(sep)` on a character separator. -/
def splitOnChar (sep : Char) (cs : List Char) : List (List Char) :=
  cs.foldr
    (fun c acc =>
      match acc with
      | cur :: rest => if c == sep then [] :: cur :: rest else (c :: cur) :: rest
      | [] => [[c]])
    [[]]

/-- Python `str.replace(pat, rep)`: left to right, non-overlapping.  The fuel is
the length of the subject, sufficient because every step consumes at least one
character when the pattern is nonempty (all patterns used in pdt.py are). -/
def replaceChars : Nat → List Char → List Char → List Char → List Char
  | 0, s, _, _ => s
  | _, [], _, _ => []
  | fuel + 1, c :: rest, pat, rep =>
    if pat.isPrefixOf (c :: rest) then rep ++ replaceChars fuel ((c :: rest).drop pat.length) pat rep
    else c :: replaceChars fuel rest pat rep

/-- Python `str.replace` on `String`. -/
def string_replace (s pat rep : String) : String :=
  String.mk (replaceChars s.data.length s.data pat.data rep.data)

/-- Python `pat in s` (contiguous substring test). -/
def hasSubstring : List Char → List Char → Bool
  | s, pat =>
    if pat.isPrefixOf s then true
    else
      match s with
      | [] => false
      | _ :: rest => hasSubstring rest pat

/-! ### The reference-extraction regex

pdt.py line 99 scans a SQL template with `re.finditer` and the pattern
dollar, open brace, `\s*`, a greedy group `(.+)`, `\s*`, close brace.
The functions below implement exactly the backtracking behaviour of that
pattern: the leading `\s*` prefers the longest whitespace run, the group
`(.+)` prefers the longest newline-free run, and the trailing
`\s*` followed by the closing brace is deterministic because a closing
brace is not whitespace. -/

/-- Match `\s*` then a literal closing brace, returning the remainder. -/
def matchWsCloseBrace (cs : List Char) : Option (List Char) :=
  match cs.drop (wsCount cs) with
  | c :: rest => if c == '\x7d' then some rest else none
  | [] => none

/-- Try group lengths `k+1` descending to 1: the group is `cs.take k`, followed
by `\s*` and the closing brace.  Returns (group, remainder after the match). -/
def tryDotThenClose : Nat → List Char → Option (List Char × List Char)
  | 0, _ => none
  | k + 1, cs =>
    match matchWsCloseBrace (cs.drop (k + 1)) with
    | some rest => some (cs.take (k + 1), rest)
    | none => tryDotThenClose k cs

/-- Try leading-whitespace lengths `a` descending to 0 before the group. -/
def tryWsGroupClose : Nat → List Char → Option (List Char × List Char)
  | 0, cs => tryDotThenClose (dotRun cs) cs
  | a + 1, cs =>
    match tryDotThenClose (dotRun (cs.drop (a + 1))) (cs.drop (a + 1)) with
    | some r => some r
    | none => tryWsGroupClose a cs

/-- Try to match the whole pattern at the head of the input. -/
def tryMatchRef : List Char → Option (List Char × List Char)
  | '$' :: '\x7b' :: rest => tryWsGroupClose (wsCount rest) rest
  | _ => none

/-- `re.finditer` scan: leftmost, non-overlapping matches.  Fuel is the input
length; every step strictly shortens the input. -/
def findRefs : Nat → List Char → List (List Char)
  | 0, _ => []
  | _, [] => []
  | fuel + 1, c :: rest =>
    match tryMatchRef (c :: rest) with
    | some (g, remainder) => g :: findRefs fuel remainder
    | none => findRefs fuel rest

/-- All group-1 captures of the reference pattern in a SQL template. -/
def find_template_refs (s : String) : List (List Char) :=
  findRefs s.data.length s.data

/-! ### View model (class LookerView, pdt.py lines 33-149) -/

/-- The `derived_table` block of a view declaration. -/
structure DerivedTable where
  sql : String
  sql_trigger_value : Option String
  distribution_style : Option String
  indexes : Option (List String)
deriving DecidableEq

/-- One view declaration record.  `sql_table_name_field` is the declared
`sql_table_name` key used by non-derived views. -/
structure ViewObject where
  view : String
  derived_table : Option DerivedTable
  sql_table_name_field : Option String
deriving DecidableEq

/-- The run context: SQL dialect plus the loaded views in insertion order
(the `self.views` dict of class LookerContext). -/
structure LookerContext where
  sql_dialect : String
  views : List ViewObject
deriving DecidableEq

/-- `LookerView.is_derived_table` (line 69). -/
def view_is_derived_table (v : ViewObject) : Bool :=
  v.derived_table.isSome

/-- `LookerView.is_persisted_derived_table` (line 73). -/
def view_is_persisted_derived_table (v : ViewObject) : Bool :=
  match v.derived_table with
  | some dt => dt.sql_trigger_value.isSome
  | none => false

/-- `LookerContext.default_schema` (line 232). -/
def default_schema (ctx : LookerContext) : Except PyError String :=
  if ctx.sql_dialect == "postgresql" then .ok "public"
  else .error (.exceptionMsg ("Unknown SQL dialect " ++ ctx.sql_dialect))

/-- `LookerView.sql_schema_name` (line 79). -/
def sql_schema_name (ctx : LookerContext) (v : ViewObject) : Except PyError String :=
  if view_is_derived_table v then .ok "looker_scratch" else default_schema ctx

/-- `LookerView.sql_table_name` (line 86); the dict access on a non-derived
view with no declared table raises KeyError. -/
def sql_table_name (v : ViewObject) : Except PyError String :=
  if view_is_derived_table v then .ok ("_" ++ v.view)
  else
    match v.sql_table_name_field with
    | some t => .ok t
    | none => .error (.keyError "sql_table_name")

/-- Lookup in the `self.views` dict. -/
def looker_views_get (ctx : LookerContext) (name : String) : Option ViewObject :=
  ctx.views.find? (fun v => v.view == name)

/-- Processing of the captured parameters in `LookerView.view_dependencies`
(lines 100-102): `param.split(".")` must unpack into exactly two names
(ValueError otherwise), then the view name is resolved in the context dict
(KeyError when absent).  The accumulator models the Python set: each
dependency name is recorded once. -/
def view_dependencies_aux (ctx : LookerContext) :
    List (List Char) → List String → Except PyError (List String)
  | [], acc => .ok acc
  | g :: gs, acc =>
    match splitOnChar '.' g with
    | [vn, _] =>
      let vname := String.mk vn
      match looker_views_get ctx vname with
      | some _ => view_dependencies_aux ctx gs (if vname ∈ acc then acc else acc ++ [vname])
      | none => .error (.keyError vname)
    | parts =>
      if parts.length < 2 then .error (.valueError "not enough values to unpack")
      else .error (.valueError "too many values to unpack")

/-- `LookerView.view_dependencies` (lines 92-103): non-derived views and
derived views without a trigger contribute no dependencies; persisted derived
tables are scanned by the embedded reference pattern. -/
def view_dependencies (ctx : LookerContext) (v : ViewObject) : Except PyError (List String) :=
  if view_is_derived_table v = false then .ok []
  else if view_is_persisted_derived_table v then
    match v.derived_table with
    | some dt => view_dependencies_aux ctx (find_template_refs dt.sql) []
    | none => .ok []
  else .ok []

/-- The (view name, dependency names) pairs for every loaded view, in
insertion order: the data from which `view_topological_order` builds its
adjacency lists (lines 193-198). -/
def view_dependency_pairs_aux (ctx : LookerContext) :
    List ViewObject → Except PyError (List (String × List String))
  | [] => .ok []
  | v :: vs =>
    match view_dependencies ctx v with
    | .error e => .error e
    | .ok deps =>
      match view_dependency_pairs_aux ctx vs with
      | .error e => .error e
      | .ok rest => .ok ((v.view, deps) :: rest)

/-- Dependency pairs for all loaded views of a context. -/
def view_dependency_pairs (ctx : LookerContext) : Except PyError (List (String × List String)) :=
  view_dependency_pairs_aux ctx ctx.views

/-! ### Depth-first topological ordering (`view_topological_order`, lines 191-229) -/

/-- The mutable state of the DFS: the accumulating order (built by
`insert(0, ...)`, hence reversed at the end), the permanent visit set and the
temporary visit marker set. -/
structure DfsState where
  ordered_view_names : List String
  permanent_visit_set : List String
  temporary_visit_set : List String
deriving DecidableEq

/-- The adjacency list built by lines 194-198: for each view entry named `n`,
its dependency names are appended to `adjacency_lists[n]`; a name that is no
view has the defaultdict value `[]`. -/
def topo_adjacency (views : List (String × List String)) (name : String) : List String :=
  ((views.filter (fun p => p.1 == name)).map Prod.snd).flatten

/-- All names mentioned by the input: view names and dependency names.  The
DFS recursion depth is bounded by its cardinality. -/
def topo_universe (views : List (String × List String)) : List String :=
  views.map Prod.fst ++ (views.map Prod.snd).flatten

/-- The `for adjacent_view_name in adjacency_lists[view_name]` loop
(line 212), parameterised by the recursive visit of one node. -/
def visitList (f : String → DfsState → Except TopoError DfsState) :
    List String → DfsState → Except TopoError DfsState
  | [], s => .ok s
  | w :: ws, s =>
    match f w s with
    | .error e => .error e
    | .ok s1 => visitList f ws s1

/-- One unfolding of the inner `visit` function (lines 204-216): a permanently
visited node is skipped, a temporarily visited node is a back edge and raises
the cycle error; otherwise the node is marked temporary, its adjacent nodes
are visited, the temporary mark is removed, the node is marked permanent and
prepended to the order. -/
def visitStep (adj : String → List String)
    (recv : String → DfsState → Except TopoError DfsState) (view_name : String)
    (s : DfsState) : Except TopoError DfsState :=
  if view_name ∈ s.permanent_visit_set then .ok s
  else if view_name ∈ s.temporary_visit_set then .error (.circularDependency view_name)
  else
    match visitList recv (adj view_name)
        { s with temporary_visit_set := view_name :: s.temporary_visit_set } with
    | .error e => .error e
    | .ok s2 =>
      .ok { ordered_view_names := view_name :: s2.ordered_view_names,
            permanent_visit_set := view_name :: s2.permanent_visit_set,
            temporary_visit_set := s2.temporary_visit_set.erase view_name }

/-- The inner `visit` function with an explicit recursion-depth budget. -/
def visit (adj : String → List String) : Nat → String → DfsState → Except TopoError DfsState
  | 0, _, _ => .error .recursionLimit
  | fuel1 + 1, view_name, s => visitStep adj (visit adj fuel1) view_name s

/-- The entry loop (lines 218-226).  The `while True` wrapper of the source
runs its body exactly once, because the `done` flag is initialised to True and
never reassigned; so the embedding is a single pass over the view names. -/
def topoLoop (adj : String → List String) (fuel : Nat) :
    List String → DfsState → Except TopoError DfsState
  | [], s => .ok s
  | n :: ns, s =>
    if n ∈ s.permanent_visit_set then topoLoop adj fuel ns s
    else
      match visit adj fuel n s with
      | .error e => .error e
      | .ok s1 => topoLoop adj fuel ns s1

/-- `LookerContext.view_topological_order` (lines 191-229), parameterised by
the extracted dependency pairs.  The fuel bounds the recursion depth and is
proved sufficient below. -/
def view_topological_order (views : List (String × List String)) :
    Except TopoError (List String) :=
  match topoLoop (topo_adjacency views) ((topo_universe views).length + 1)
      (views.map Prod.fst) ⟨[], [], []⟩ with
  | .error e => .error e
  | .ok s => .ok s.ordered_view_names.reverse

/-- The full property as called on a context: dependency extraction (which can
itself raise), then the DFS. -/
def context_view_topological_order (ctx : LookerContext) : Except PyError (List String) :=
  match view_dependency_pairs ctx with
  | .error e => .error e
  | .ok pairs =>
    match view_topological_order pairs with
    | .error te => .error (.topo te)
    | .ok order => .ok order

/-- The edge relation of the dependency graph described by the pairs:
`depEdge views a b` holds when `b` is recorded as a dependency of `a`. -/
def depEdge (views : List (String × List String)) (a b : String) : Prop :=
  b ∈ topo_adjacency views a

instance (views : List (String × List String)) (a b : String) :
    Decidable (depEdge views a b) := by
  unfold depEdge; infer_instance

/-! ### SQL text builders -/

/-- A single-quote character, used to quote SQL string literals. -/
def sqlQuote : String := String.singleton (Char.ofNat 39)

/-- `LookerContext._has_table_sql` for the postgresql dialect (lines 239-246),
with whitespace normalised to single spaces. -/
def has_table_sql_pg (table schema : String) : String :=
  "SELECT EXISTS ( SELECT 1 FROM information_schema.tables WHERE table_schema = " ++
    sqlQuote ++ schema ++ sqlQuote ++ " AND table_name = " ++ sqlQuote ++ table ++ sqlQuote ++
    " );"

/-- `LookerContext._has_table_sql` (line 237): unknown dialects raise. -/
def has_table_sql (ctx : LookerContext) (table schema : String) : Except PyError String :=
  if ctx.sql_dialect == "postgresql" then .ok (has_table_sql_pg table schema)
  else .error (.exceptionMsg ("Unknown SQL dialect " ++ ctx.sql_dialect))

/-- `LookerContext._create_schema` (line 257). -/
def create_schema_sql (ctx : LookerContext) (schema : String) : Except PyError String :=
  if ctx.sql_dialect == "postgresql" then .ok ("CREATE SCHEMA IF NOT EXISTS " ++ schema ++ ";")
  else .error (.exceptionMsg ("Unknown SQL dialect " ++ ctx.sql_dialect))

/-- The `sql_table_name_parameters` registry filled by `LookerView.__init__`
(lines 41-45): for each view, the key `name.SQL_TABLE_NAME` maps to its
qualified physical location. -/
def sql_table_name_parameters_aux (ctx : LookerContext) :
    List ViewObject → Except PyError (List (String × String))
  | [] => .ok []
  | v :: vs =>
    match sql_schema_name ctx v with
    | .error e => .error e
    | .ok sch =>
      match sql_table_name v with
      | .error e => .error e
      | .ok tbl =>
        match sql_table_name_parameters_aux ctx vs with
        | .error e => .error e
        | .ok rest => .ok ((v.view ++ ".SQL_TABLE_NAME", sch ++ "." ++ tbl) :: rest)

/-- `LookerContext.all_parameters` (line 163). -/
def all_parameters (ctx : LookerContext) : Except PyError (List (String × String)) :=
  sql_table_name_parameters_aux ctx ctx.views

/-- The template-parameter pattern built at line 143: dollar, open brace, the
parameter name, close brace. -/
def lookml_pattern (name : String) : String := "$\x7b" ++ name ++ "\x7d"

/-- The substitution loop of `regenerate_derived_table_sql` (lines 141-145). -/
def substitute_parameters (params : List (String × String)) (sql : String) : String :=
  params.foldl
    (fun acc p =>
      if hasSubstring acc.data (lookml_pattern p.1).data then
        string_replace acc (lookml_pattern p.1) p.2
      else acc)
    sql

/-- `LookerView._regenerate_derived_table_sql` for postgresql (lines 107-125),
whitespace normalised.  For a persisted derived table the schema is the
scratch schema and the table is the mangled view name. -/
def regenerate_derived_table_sql_pg (v : ViewObject) (dt : DerivedTable) (sql : String) :
    String :=
  "DROP TABLE IF EXISTS looker_scratch._" ++ v.view ++
    "; CREATE TABLE looker_scratch._" ++ v.view ++
    " DISTSTYLE " ++ dt.distribution_style.getD "ALL" ++ " " ++
    (match dt.indexes with
     | some idxs => "INTERLEAVED SORTKEY(" ++ String.intercalate "," idxs ++ ")"
     | none => "") ++
    " AS " ++ sql ++ ";"

/-- `LookerView.regenerate_derived_table_sql` (lines 130-149): escape every
percent sign, substitute all known parameters, then render the dialect DDL. -/
def regenerate_derived_table_sql (ctx : LookerContext) (v : ViewObject) :
    Except PyError String :=
  if view_is_persisted_derived_table v then
    match v.derived_table with
    | none => .error (.exceptionMsg ("Looker view " ++ v.view ++ " is not a derived_table"))
    | some dt =>
      match all_parameters ctx with
      | .error e => .error e
      | .ok params =>
        let sql1 := substitute_parameters params (string_replace dt.sql "%" "%%")
        if ctx.sql_dialect == "postgresql" then .ok (regenerate_derived_table_sql_pg v dt sql1)
        else .error (.exceptionMsg ("Unknown SQL dialect " ++ ctx.sql_dialect))
  else .error (.exceptionMsg ("Looker view " ++ v.view ++ " is not a derived_table"))

/-! ### Warehouse connection, trigger-value store, and the regeneration driver -/

/-- A warehouse connection: executing a statement yields a row set, or fails. -/
structure Connection where
  exec : String → Except String (List (List Value))

/-- The trigger-value store (one pickle file per view, keyed by view name). -/
abbrev Store := List (String × Value)

/-- Reading a trigger value (`LookerView.trigger_value` getter, lines 52-57);
absence means never regenerated. -/
def store_get (store : Store) (name : String) : Option Value :=
  (store.find? (fun p => p.1 == name)).map Prod.snd

/-- Writing a trigger value (`LookerView.trigger_value` setter, lines 59-62). -/
def store_set (store : Store) (name : String) (x : Value) : Store :=
  (name, x) :: store

/-- `LookerContext.get_latest_sql_trigger_value` (lines 177-186): execute the
trigger query; zero rows raise; otherwise the first column of the first row is
returned. -/
def get_latest_sql_trigger_value (conn : Connection) (v : ViewObject) :
    Except PyError Value × List Event :=
  match v.derived_table with
  | none => (.error (.keyError "derived_table"), [])
  | some dt =>
    match dt.sql_trigger_value with
    | none => (.error (.keyError "sql_trigger_value"), [])
    | some tq =>
      match conn.exec tq with
      | .error m => (.error (.sqlError m), [Event.sqlExec tq])
      | .ok rows =>
        match rows with
        | [] =>
          (.error (.exceptionMsg "Looker sql_trigger_value query did not return any value"),
            [Event.sqlExec tq])
        | [] :: _ => (.error .indexError, [Event.sqlExec tq])
        | (x :: _) :: _ => (.ok x, [Event.sqlExec tq])

/-- `LookerContext.has_table` (lines 249-255): same shape as the trigger-value
query, with its own zero-row message. -/
def has_table (ctx : LookerContext) (conn : Connection) (table schema : String) :
    Except PyError Value × List Event :=
  match has_table_sql ctx table schema with
  | .error e => (.error e, [])
  | .ok stmt =>
    match conn.exec stmt with
    | .error m => (.error (.sqlError m), [Event.sqlExec stmt])
    | .ok rows =>
      match rows with
      | [] => (.error (.exceptionMsg "Has table sql returned no result"), [Event.sqlExec stmt])
      | [] :: _ => (.error .indexError, [Event.sqlExec stmt])
      | (x :: _) :: _ => (.ok x, [Event.sqlExec stmt])

/-- The regeneration tail of `trigger_view` (lines 287-300): render the DDL,
execute it, then run `view.trigger_value = latest_trigger_value`.  The local
`latest_trigger_value` is only assigned inside the `if has_table:` branch, so
it arrives here as an `Option`; assigning from the unbound local raises
UnboundLocalError. -/
def trigger_view_regenerate (ctx : LookerContext) (conn : Connection) (v : ViewObject)
    (store : Store) (latest_trigger_value : Option Value) (evs : List Event) :
    Except PyError Unit × Store × List Event :=
  match regenerate_derived_table_sql ctx v with
  | .error e => (.error e, store, evs)
  | .ok rsql =>
    match conn.exec rsql with
    | .error m => (.error (.sqlError m), store, evs ++ [Event.sqlExec rsql])
    | .ok _ =>
      match latest_trigger_value with
      | none => (.error (.unboundLocal "latest_trigger_value"), store, evs ++ [Event.sqlExec rsql])
      | some x =>
        (.ok (), store_set store v.view x,
          evs ++ [Event.sqlExec rsql, Event.storeWrite v.view x])

/-- `LookerContext.trigger_view` (lines 270-307).  The `except` clause of the
source logs and re-raises, so errors propagate unchanged. -/
def trigger_view (ctx : LookerContext) (conn : Connection) (v : ViewObject) (store : Store) :
    Except PyError Unit × Store × List Event :=
  if view_is_persisted_derived_table v = false then
    (.error (.exceptionMsg "View cannot be triggered: its not a persisted derived table!"),
      store, [])
  else
    match sql_table_name v with
    | .error e => (.error e, store, [])
    | .ok tbl =>
      match sql_schema_name ctx v with
      | .error e => (.error e, store, [])
      | .ok sch =>
        match has_table ctx conn tbl sch with
        | (.error e, evs) => (.error e, store, evs)
        | (.ok ht, evs1) =>
          if truthy ht then
            match get_latest_sql_trigger_value conn v with
            | (.error e, evs2) => (.error e, store, evs1 ++ evs2)
            | (.ok latest, evs2) =>
              match store_get store v.view with
              | some stored =>
                if stored == latest then (.ok (), store, evs1 ++ evs2)
                else trigger_view_regenerate ctx conn v store (some latest) (evs1 ++ evs2)
              | none => trigger_view_regenerate ctx conn v store (some latest) (evs1 ++ evs2)
          else trigger_view_regenerate ctx conn v store none evs1

/-- The per-view loop of `LookerContext.trigger_all` (lines 321-327).  The
final component tracks the Python local `transaction`: `none` while no
`connection.begin()` has run yet. -/
def trigger_all_loop (ctx : LookerContext) (conn : Connection) :
    List String → Store → Option Unit → Except PyError Unit × Store × List Event × Option Unit
  | [], store, tx => (.ok (), store, [], tx)
  | n :: ns, store, tx =>
    match looker_views_get ctx n with
    | none => (.error (.keyError n), store, [], tx)
    | some v =>
      if view_is_persisted_derived_table v = false then trigger_all_loop ctx conn ns store tx
      else
        match trigger_view ctx conn v store with
        | (.error e, store1, evs) => (.error e, store1, Event.txBegin :: evs, some ())
        | (.ok _, store1, evs) =>
          match trigger_all_loop ctx conn ns store1 (some ()) with
          | (r, store2, evs2, tx2) =>
            (r, store2, Event.txBegin :: (evs ++ Event.txCommit :: evs2), tx2)

/-- `LookerContext.trigger_all` (lines 309-330).  The topological order is
computed before the connection is used, so its errors propagate with no SQL
issued.  The `except` clause logs, then calls `transaction.rollback()`: when a
transaction was opened the original exception is swallowed and the method
returns normally; when no transaction was ever opened the handler itself
raises UnboundLocalError on the unbound `transaction` local. -/
def looker_trigger_all (ctx : LookerContext) (conn : Connection) (store : Store) :
    Except PyError Unit × Store × List Event :=
  match context_view_topological_order ctx with
  | .error e => (.error e, store, [])
  | .ok order =>
    match create_schema_sql ctx "looker_scratch" with
    | .error _ => (.error (.unboundLocal "transaction"), store, [])
    | .ok cstmt =>
      match conn.exec cstmt with
      | .error _ => (.error (.unboundLocal "transaction"), store, [Event.sqlExec cstmt])
      | .ok _ =>
        match trigger_all_loop ctx conn order store none with
        | (.ok _, store1, evs, _) => (.ok (), store1, Event.sqlExec cstmt :: evs)
        | (.error _, store1, evs, some _) =>
          (.ok (), store1, Event.sqlExec cstmt :: (evs ++ [Event.txRollback]))
        | (.error _, store1, evs, none) =>
          (.error (.unboundLocal "transaction"), store1, Event.sqlExec cstmt :: evs)

/-! ### Positions in a list -/

/-- Index of the first occurrence of a name in a list. -/
def index_in (a : String) : List String → Nat
  | [] => 0
  | b :: l => if b = a then 0 else index_in a l + 1

theorem index_in_lt_length : ∀ (l : List String) (a : String), a ∈ l →
    index_in a l < l.length := by
  intro l
  induction l with
  | nil => intro a h; cases h
  | cons b t ih =>
    intro a h
    by_cases hb : b = a
    · simp [index_in, hb]
    · have ha : a ∈ t := by
        rcases List.mem_cons.mp h with h1 | h2
        · exact absurd h1.symm hb
        · exact h2
      simp only [index_in, if_neg hb, List.length_cons]
      exact Nat.succ_lt_succ (ih a ha)

theorem get_index_in : ∀ (l : List String) (a : String) (_h : a ∈ l)
    (hlt : index_in a l < l.length), l.get ⟨index_in a l, hlt⟩ = a := by
  intro l
  induction l with
  | nil => intro a h; cases h
  | cons b t ih =>
    intro a h hlt
    by_cases hb : b = a
    · simp [index_in, hb]
    · have ha : a ∈ t := by
        rcases List.mem_cons.mp h with h1 | h2
        · exact absurd h1.symm hb
        · exact h2
      have hlt2 : index_in a t < t.length := index_in_lt_length t a ha
      simp only [index_in, if_neg hb]
      exact ih a ha hlt2

/-- In a `Pairwise R` list, the relation holds from an earlier member to a
later member. -/
theorem pairwise_rel_of_index_lt {R : String → String → Prop} :
    ∀ (l : List String), l.Pairwise R → ∀ a b, a ∈ l → b ∈ l →
      index_in a l < index_in b l → R a b := by
  intro l hp a b ha hb hlt
  have hia := index_in_lt_length l a ha
  have hib := index_in_lt_length l b hb
  have h1 := List.pairwise_iff_get.mp hp ⟨index_in a l, hia⟩ ⟨index_in b l, hib⟩ hlt
  rwa [get_index_in l a ha hia, get_index_in l b hb hib] at h1

/-! ### Invariants of the depth-first search -/

/-- Well-formedness of a DFS state: the accumulated order has no duplicates
and coincides with the permanent set; dependencies of ordered nodes are
ordered; an earlier node of the (pre-reversal) order is never a dependency of
a later one; no ordered node depends on itself; and the temporary markers are
disjoint from the permanent set. -/
def WFS (adj : String → List String) (s : DfsState) : Prop :=
  s.ordered_view_names.Nodup ∧
  (∀ x, x ∈ s.permanent_visit_set ↔ x ∈ s.ordered_view_names) ∧
  (∀ v, v ∈ s.ordered_view_names → ∀ w, w ∈ adj v → w ∈ s.ordered_view_names) ∧
  s.ordered_view_names.Pairwise (fun a b => a ∉ adj b) ∧
  (∀ v, v ∈ s.ordered_view_names → v ∉ adj v) ∧
  (∀ x, x ∈ s.temporary_visit_set → x ∉ s.permanent_visit_set)

/-- A successful `visit` or `visitList` call restores the temporary visit
set exactly. -/
theorem dfs_temp_eq (adj : String → List String) : ∀ fuel : Nat,
    (∀ v s s', visit adj fuel v s = .ok s' →
      s'.temporary_visit_set = s.temporary_visit_set) ∧
    (∀ l s s', visitList (visit adj fuel) l s = .ok s' →
      s'.temporary_visit_set = s.temporary_visit_set) := by
  intro fuel
  induction fuel with
  | zero =>
    constructor
    · intro v s s' h
      simp [visit] at h
    · intro l s s' h
      cases l with
      | nil =>
        simp only [visitList] at h
        cases h
        rfl
      | cons w ws =>
        simp [visitList, visit] at h
  | succ f ih =>
    have hv : ∀ v s s', visit adj (f + 1) v s = .ok s' →
        s'.temporary_visit_set = s.temporary_visit_set := by
      intro v s s' h
      simp only [visit, visitStep] at h
      by_cases h1 : v ∈ s.permanent_visit_set
      · rw [if_pos h1] at h
        cases h
        rfl
      · rw [if_neg h1] at h
        by_cases h2 : v ∈ s.temporary_visit_set
        · rw [if_pos h2] at h
          cases h
        · rw [if_neg h2] at h
          cases hvc : visitList (visit adj f) (adj v)
              { s with temporary_visit_set := v :: s.temporary_visit_set } with
          | error e => simp [hvc] at h
          | ok s2 =>
            simp only [hvc] at h
            cases h
            have h3 := ih.2 _ _ _ hvc
            simp only at h3
            simp [h3, List.erase_cons_head]
    have hc : ∀ l s s', visitList (visit adj (f + 1)) l s = .ok s' →
        s'.temporary_visit_set = s.temporary_visit_set := by
      intro l
      induction l with
      | nil =>
        intro s s' h
        simp only [visitList] at h
        cases h
        rfl
      | cons w ws ihl =>
        intro s s' h
        simp only [visitList] at h
        cases hv1 : visit adj (f + 1) w s with
        | error e => simp [hv1] at h
        | ok s1 =>
          simp only [hv1] at h
          rw [ihl _ _ h, hv _ _ _ hv1]
    exact ⟨hv, hc⟩

/-- A successful `visit` preserves well-formedness, adds the visited node to
the permanent set, and never removes permanent nodes; a successful
`visitList` does the same for every node of its list. -/
theorem dfs_ok (adj : String → List String) : ∀ fuel : Nat,
    (∀ v s s', WFS adj s → visit adj fuel v s = .ok s' →
      WFS adj s' ∧ v ∈ s'.permanent_visit_set ∧
      (∀ x, x ∈ s.permanent_visit_set → x ∈ s'.permanent_visit_set)) ∧
    (∀ l s s', WFS adj s → visitList (visit adj fuel) l s = .ok s' →
      WFS adj s' ∧ (∀ w, w ∈ l → w ∈ s'.permanent_visit_set) ∧
      (∀ x, x ∈ s.permanent_visit_set → x ∈ s'.permanent_visit_set)) := by
  intro fuel
  induction fuel with
  | zero =>
    constructor
    · intro v s s' hWF h
      simp [visit] at h
    · intro l s s' hWF h
      cases l with
      | nil =>
        simp only [visitList] at h
        cases h
        exact ⟨hWF, fun w hw => absurd hw (List.not_mem_nil w), fun x hx => hx⟩
      | cons w ws =>
        simp [visitList, visit] at h
  | succ f ih =>
    have hv : ∀ v s s', WFS adj s → visit adj (f + 1) v s = .ok s' →
        WFS adj s' ∧ v ∈ s'.permanent_visit_set ∧
        (∀ x, x ∈ s.permanent_visit_set → x ∈ s'.permanent_visit_set) := by
      intro v s s' hWF h
      simp only [visit, visitStep] at h
      by_cases h1 : v ∈ s.permanent_visit_set
      · rw [if_pos h1] at h
        cases h
        exact ⟨hWF, h1, fun x hx => hx⟩
      · rw [if_neg h1] at h
        by_cases h2 : v ∈ s.temporary_visit_set
        · rw [if_pos h2] at h
          cases h
        · rw [if_neg h2] at h
          cases hvc : visitList (visit adj f) (adj v)
              { s with temporary_visit_set := v :: s.temporary_visit_set } with
          | error e => simp [hvc] at h
          | ok s2 =>
            simp only [hvc] at h
            cases h
            obtain ⟨hnd, hiff, hcov, hpw, hirr, htd⟩ := hWF
            have hWF1 : WFS adj { s with temporary_visit_set := v :: s.temporary_visit_set } := by
              refine ⟨hnd, hiff, hcov, hpw, hirr, ?_⟩
              intro x hx
              rcases List.mem_cons.mp hx with rfl | hx2
              · exact h1
              · exact htd x hx2
            obtain ⟨hWF2, hchild, hmono⟩ := ih.2 _ _ _ hWF1 hvc
            obtain ⟨hnd2, hiff2, hcov2, hpw2, hirr2, htd2⟩ := hWF2
            have htemp2 : s2.temporary_visit_set = v :: s.temporary_visit_set := by
              have := (dfs_temp_eq adj f).2 _ _ _ hvc
              simpa using this
            have hvtemp2 : v ∈ s2.temporary_visit_set := by
              rw [htemp2]; exact List.mem_cons_self _ _
            have hvperm2 : v ∉ s2.permanent_visit_set := htd2 v hvtemp2
            have hvord2 : v ∉ s2.ordered_view_names := fun hmem => hvperm2 ((hiff2 v).mpr hmem)
            refine ⟨⟨?_, ?_, ?_, ?_, ?_, ?_⟩, ?_, ?_⟩
            · exact List.nodup_cons.mpr ⟨hvord2, hnd2⟩
            · intro x
              simp only [List.mem_cons]
              constructor
              · rintro (rfl | hx)
                · exact Or.inl rfl
                · exact Or.inr ((hiff2 x).mp hx)
              · rintro (rfl | hx)
                · exact Or.inl rfl
                · exact Or.inr ((hiff2 x).mpr hx)
            · intro v' hv' w hw
              simp only [List.mem_cons] at hv' ⊢
              rcases hv' with rfl | hv'2
              · exact Or.inr ((hiff2 w).mp (hchild w hw))
              · exact Or.inr (hcov2 v' hv'2 w hw)
            · refine List.pairwise_cons.mpr ⟨?_, hpw2⟩
              intro b hb hvb
              exact hvord2 (hcov2 b hb v hvb)
            · intro v' hv'
              simp only [List.mem_cons] at hv'
              rcases hv' with rfl | hv'2
              · intro hvv
                exact hvperm2 (hchild v' hvv)
              · exact hirr2 v' hv'2
            · intro x hx
              simp only at hx
              rw [htemp2, List.erase_cons_head] at hx
              have hxne : x ≠ v := fun hxv => h2 (hxv ▸ hx)
              have hxtemp2 : x ∈ s2.temporary_visit_set := by
                rw [htemp2]; exact List.mem_cons_of_mem _ hx
              have := htd2 x hxtemp2
              simp only [List.mem_cons]
              rintro (rfl | hxp)
              · exact hxne rfl
              · exact this hxp
            · exact List.mem_cons_self _ _
            · intro x hx
              exact List.mem_cons_of_mem _ (hmono x hx)
    have hc : ∀ l s s', WFS adj s → visitList (visit adj (f + 1)) l s = .ok s' →
        WFS adj s' ∧ (∀ w, w ∈ l → w ∈ s'.permanent_visit_set) ∧
        (∀ x, x ∈ s.permanent_visit_set → x ∈ s'.permanent_visit_set) := by
      intro l
      induction l with
      | nil =>
        intro s s' hWF h
        simp only [visitList] at h
        cases h
        exact ⟨hWF, fun w hw => absurd hw (List.not_mem_nil w), fun x hx => hx⟩
      | cons w ws ihl =>
        intro s s' hWF h
        simp only [visitList] at h
        cases hv1 : visit adj (f + 1) w s with
        | error e => simp [hv1] at h
        | ok s1 =>
          simp only [hv1] at h
          obtain ⟨hWF1, hwperm, hmono1⟩ := hv _ _ _ hWF hv1
          obtain ⟨hWF', hws, hmono2⟩ := ihl _ _ hWF1 h
          refine ⟨hWF', ?_, fun x hx => hmono2 x (hmono1 x hx)⟩
          intro w' hw'
          rcases List.mem_cons.mp hw' with rfl | hw'2
          · exact hmono2 w' hwperm
          · exact hws w' hw'2
    exact ⟨hv, hc⟩

/-- The edge relation read off an adjacency function. -/
def adjEdge (adj : String → List String) (a b : String) : Prop := b ∈ adj a

theorem adjEdge_topo (views : List (String × List String)) :
    adjEdge (topo_adjacency views) = depEdge views := rfl

/-- With enough fuel relative to the unvisited part of a closed name universe,
the DFS never exhausts its recursion budget. -/
theorem dfs_fuel (adj : String → List String) (U : List String)
    (Hadj : ∀ x y, y ∈ adj x → y ∈ U) : ∀ fuel : Nat,
    (∀ v s, v ∈ U →
      (U.toFinset \ s.temporary_visit_set.toFinset).card < fuel →
      visit adj fuel v s ≠ .error .recursionLimit) ∧
    (∀ l s, (∀ w, w ∈ l → w ∈ U) →
      (U.toFinset \ s.temporary_visit_set.toFinset).card < fuel →
      visitList (visit adj fuel) l s ≠ .error .recursionLimit) := by
  intro fuel
  induction fuel with
  | zero =>
    constructor
    · intro v s _ hcard
      exact absurd hcard (Nat.not_lt_zero _)
    · intro l s _ hcard
      exact absurd hcard (Nat.not_lt_zero _)
  | succ f ih =>
    have hv : ∀ v s, v ∈ U →
        (U.toFinset \ s.temporary_visit_set.toFinset).card < f + 1 →
        visit adj (f + 1) v s ≠ .error .recursionLimit := by
      intro v s hvU hcard heq
      simp only [visit, visitStep] at heq
      by_cases h1 : v ∈ s.permanent_visit_set
      · rw [if_pos h1] at heq
        cases heq
      · rw [if_neg h1] at heq
        by_cases h2 : v ∈ s.temporary_visit_set
        · rw [if_pos h2] at heq
          simp at heq
        · rw [if_neg h2] at heq
          cases hvc : visitList (visit adj f) (adj v)
              { s with temporary_visit_set := v :: s.temporary_visit_set } with
          | error e =>
            simp only [hvc] at heq
            cases heq
            have hvmem : v ∈ U.toFinset \ s.temporary_visit_set.toFinset := by
              rw [Finset.mem_sdiff]
              exact ⟨List.mem_toFinset.mpr hvU, fun hc => h2 (List.mem_toFinset.mp hc)⟩
            have hpos : 0 < (U.toFinset \ s.temporary_visit_set.toFinset).card :=
              Finset.card_pos.mpr ⟨v, hvmem⟩
            have hsd : U.toFinset \ (v :: s.temporary_visit_set).toFinset =
                (U.toFinset \ s.temporary_visit_set.toFinset).erase v := by
              rw [List.toFinset_cons]
              ext x
              simp only [Finset.mem_sdiff, Finset.mem_insert, Finset.mem_erase]
              tauto
            have hcard2 : (U.toFinset \
                (v :: s.temporary_visit_set).toFinset).card < f := by
              rw [hsd, Finset.card_erase_of_mem hvmem]
              omega
            exact ih.2 (adj v) _ (fun w hw => Hadj v w hw) (by simpa using hcard2) hvc
          | ok s2 =>
            simp only [hvc] at heq
            cases heq
    have hc : ∀ l s, (∀ w, w ∈ l → w ∈ U) →
        (U.toFinset \ s.temporary_visit_set.toFinset).card < f + 1 →
        visitList (visit adj (f + 1)) l s ≠ .error .recursionLimit := by
      intro l
      induction l with
      | nil =>
        intro s _ _ heq
        simp [visitList] at heq
      | cons w ws ihl =>
        intro s hl hcard heq
        simp only [visitList] at heq
        cases hv1 : visit adj (f + 1) w s with
        | error e =>
          simp only [hv1] at heq
          cases heq
          exact hv w s (hl w (List.mem_cons_self _ _)) hcard hv1
        | ok s1 =>
          simp only [hv1] at heq
          have htemp : s1.temporary_visit_set = s.temporary_visit_set :=
            (dfs_temp_eq adj (f + 1)).1 _ _ _ hv1
          refine ihl s1 (fun w' hw' => hl w' (List.mem_cons_of_mem _ hw')) ?_ heq
          rw [htemp]
          exact hcard
    exact ⟨hv, hc⟩

/-- When the DFS raises the circular-dependency error, the named view lies on
a cycle of the edge relation, provided every node on the current recursion
path reaches the node being visited. -/
theorem dfs_cycle (adj : String → List String) : ∀ fuel : Nat,
    (∀ v s u, (∀ t, t ∈ s.temporary_visit_set → Relation.TransGen (adjEdge adj) t v) →
      visit adj fuel v s = .error (.circularDependency u) →
      Relation.TransGen (adjEdge adj) u u) ∧
    (∀ l s u,
      (∀ w, w ∈ l → ∀ t, t ∈ s.temporary_visit_set → Relation.TransGen (adjEdge adj) t w) →
      visitList (visit adj fuel) l s = .error (.circularDependency u) →
      Relation.TransGen (adjEdge adj) u u) := by
  intro fuel
  induction fuel with
  | zero =>
    constructor
    · intro v s u _ heq
      simp [visit] at heq
    · intro l s u _ heq
      cases l with
      | nil => simp [visitList] at heq
      | cons w ws => simp [visitList, visit] at heq
  | succ f ih =>
    have hv : ∀ v s u,
        (∀ t, t ∈ s.temporary_visit_set → Relation.TransGen (adjEdge adj) t v) →
        visit adj (f + 1) v s = .error (.circularDependency u) →
        Relation.TransGen (adjEdge adj) u u := by
      intro v s u hpath heq
      simp only [visit, visitStep] at heq
      by_cases h1 : v ∈ s.permanent_visit_set
      · rw [if_pos h1] at heq
        cases heq
      · rw [if_neg h1] at heq
        by_cases h2 : v ∈ s.temporary_visit_set
        · rw [if_pos h2] at heq
          have : v = u := by
            injection heq with h
            injection h
          subst this
          exact hpath v h2
        · rw [if_neg h2] at heq
          cases hvc : visitList (visit adj f) (adj v)
              { s with temporary_visit_set := v :: s.temporary_visit_set } with
          | error e =>
            simp only [hvc] at heq
            cases heq
            refine ih.2 (adj v) _ u ?_ hvc
            intro w hw t ht
            simp only [List.mem_cons] at ht
            rcases ht with rfl | ht2
            · exact Relation.TransGen.single hw
            · exact Relation.TransGen.tail (hpath t ht2) hw
          | ok s2 =>
            simp only [hvc] at heq
            cases heq
    have hc : ∀ l s u,
        (∀ w, w ∈ l → ∀ t, t ∈ s.temporary_visit_set → Relation.TransGen (adjEdge adj) t w) →
        visitList (visit adj (f + 1)) l s = .error (.circularDependency u) →
        Relation.TransGen (adjEdge adj) u u := by
      intro l
      induction l with
      | nil =>
        intro s u _ heq
        simp [visitList] at heq
      | cons w ws ihl =>
        intro s u hl heq
        simp only [visitList] at heq
        cases hv1 : visit adj (f + 1) w s with
        | error e =>
          simp only [hv1] at heq
          cases heq
          exact hv w s u (hl w (List.mem_cons_self _ _)) hv1
        | ok s1 =>
          simp only [hv1] at heq
          have htemp : s1.temporary_visit_set = s.temporary_visit_set :=
            (dfs_temp_eq adj (f + 1)).1 _ _ _ hv1
          refine ihl s1 u ?_ heq
          intro w' hw' t ht
          rw [htemp] at ht
          exact hl w' (List.mem_cons_of_mem _ hw') t ht
    exact ⟨hv, hc⟩

/-- The entry loop preserves well-formedness and ends with every root
permanently visited. -/
theorem topoLoop_ok (adj : String → List String) (fuel : Nat) :
    ∀ roots s s', WFS adj s → topoLoop adj fuel roots s = .ok s' →
    WFS adj s' ∧ (∀ n, n ∈ roots → n ∈ s'.permanent_visit_set) ∧
    (∀ x, x ∈ s.permanent_visit_set → x ∈ s'.permanent_visit_set) ∧
    s'.temporary_visit_set = s.temporary_visit_set := by
  intro roots
  induction roots with
  | nil =>
    intro s s' hWF h
    simp only [topoLoop] at h
    cases h
    exact ⟨hWF, fun n hn => absurd hn (List.not_mem_nil n), fun x hx => hx, rfl⟩
  | cons n ns ih =>
    intro s s' hWF h
    simp only [topoLoop] at h
    by_cases h1 : n ∈ s.permanent_visit_set
    · rw [if_pos h1] at h
      obtain ⟨hWF', hroots, hmono, htemp⟩ := ih s s' hWF h
      refine ⟨hWF', ?_, hmono, htemp⟩
      intro n' hn'
      rcases List.mem_cons.mp hn' with rfl | hn'2
      · exact hmono n' h1
      · exact hroots n' hn'2
    · rw [if_neg h1] at h
      cases hv1 : visit adj fuel n s with
      | error e => simp [hv1] at h
      | ok s1 =>
        simp only [hv1] at h
        obtain ⟨hWF1, hnperm, hmono1⟩ := (dfs_ok adj fuel).1 _ _ _ hWF hv1
        have htemp1 : s1.temporary_visit_set = s.temporary_visit_set :=
          (dfs_temp_eq adj fuel).1 _ _ _ hv1
        obtain ⟨hWF', hroots, hmono2, htemp2⟩ := ih s1 s' hWF1 h
        refine ⟨hWF', ?_, fun x hx => hmono2 x (hmono1 x hx), by rw [htemp2, htemp1]⟩
        intro n' hn'
        rcases List.mem_cons.mp hn' with rfl | hn'2
        · exact hmono2 n' hnperm
        · exact hroots n' hn'2

/-- The entry loop never exhausts the fuel when the fuel exceeds the size of a
closed name universe containing all roots. -/
theorem topoLoop_fuel (adj : String → List String) (U : List String)
    (Hadj : ∀ x y, y ∈ adj x → y ∈ U) (fuel : Nat) :
    ∀ roots s, (∀ n, n ∈ roots → n ∈ U) →
    (U.toFinset \ s.temporary_visit_set.toFinset).card < fuel →
    topoLoop adj fuel roots s ≠ .error .recursionLimit := by
  intro roots
  induction roots with
  | nil =>
    intro s _ _ heq
    simp [topoLoop] at heq
  | cons n ns ih =>
    intro s hroots hcard heq
    simp only [topoLoop] at heq
    by_cases h1 : n ∈ s.permanent_visit_set
    · rw [if_pos h1] at heq
      exact ih s (fun m hm => hroots m (List.mem_cons_of_mem _ hm)) hcard heq
    · rw [if_neg h1] at heq
      cases hv1 : visit adj fuel n s with
      | error e =>
        simp only [hv1] at heq
        cases heq
        exact (dfs_fuel adj U Hadj fuel).1 n s (hroots n (List.mem_cons_self _ _)) hcard hv1
      | ok s1 =>
        simp only [hv1] at heq
        have htemp : s1.temporary_visit_set = s.temporary_visit_set :=
          (dfs_temp_eq adj fuel).1 _ _ _ hv1
        refine ih s1 (fun m hm => hroots m (List.mem_cons_of_mem _ hm)) ?_ heq
        rw [htemp]
        exact hcard

/-- When the entry loop reports a circular dependency starting from an empty
recursion path, the named view lies on a cycle. -/
theorem topoLoop_cycle (adj : String → List String) (fuel : Nat) :
    ∀ roots s u, s.temporary_visit_set = [] →
    topoLoop adj fuel roots s = .error (.circularDependency u) →
    Relation.TransGen (adjEdge adj) u u := by
  intro roots
  induction roots with
  | nil =>
    intro s u _ heq
    simp [topoLoop] at heq
  | cons n ns ih =>
    intro s u htemp heq
    simp only [topoLoop] at heq
    by_cases h1 : n ∈ s.permanent_visit_set
    · rw [if_pos h1] at heq
      exact ih s u htemp heq
    · rw [if_neg h1] at heq
      cases hv1 : visit adj fuel n s with
      | error e =>
        simp only [hv1] at heq
        cases heq
        refine (dfs_cycle adj fuel).1 n s u ?_ hv1
        intro t ht
        rw [htemp] at ht
        cases ht
      | ok s1 =>
        simp only [hv1] at heq
        have htemp1 : s1.temporary_visit_set = s.temporary_visit_set :=
          (dfs_temp_eq adj fuel).1 _ _ _ hv1
        exact ih s1 u (htemp1.trans htemp) heq

/-- In a duplicate-free list whose members never depend on later members, on
themselves, or on anything outside the list, every dependency of a member
occurs strictly earlier. -/
theorem ordered_edge_before (adj : String → List String) (L : List String)
    (hpw : L.Pairwise (fun a b => b ∉ adj a))
    (hcov : ∀ v, v ∈ L → ∀ w, w ∈ adj v → w ∈ L)
    (hirr : ∀ v, v ∈ L → v ∉ adj v) :
    ∀ v w, v ∈ L → w ∈ adj v → w ∈ L ∧ index_in w L < index_in v L := by
  intro v w hv hw
  have hwL : w ∈ L := hcov v hv w hw
  refine ⟨hwL, ?_⟩
  have hne : w ≠ v := fun he => hirr v hv (he ▸ hw)
  rcases Nat.lt_trichotomy (index_in w L) (index_in v L) with hlt | heq | hgt
  · exact hlt
  · exfalso
    have hiv := index_in_lt_length L v hv
    have hiw := index_in_lt_length L w hwL
    have hgv := get_index_in L v hv hiv
    have hgw := get_index_in L w hwL hiw
    have hfin : (⟨index_in w L, hiw⟩ : Fin L.length) = ⟨index_in v L, hiv⟩ := Fin.ext heq
    rw [hfin, hgv] at hgw
    exact hne hgw.symm
  · exact absurd hw (pairwise_rel_of_index_lt L hpw v w hv hwL hgt)

/-- Transitive closure of `ordered_edge_before`: every transitive dependency
of a member occurs strictly earlier in the list. -/
theorem ordered_reach_before (adj : String → List String) (L : List String)
    (hpw : L.Pairwise (fun a b => b ∉ adj a))
    (hcov : ∀ v, v ∈ L → ∀ w, w ∈ adj v → w ∈ L)
    (hirr : ∀ v, v ∈ L → v ∉ adj v) :
    ∀ v w, v ∈ L → Relation.TransGen (adjEdge adj) v w →
      w ∈ L ∧ index_in w L < index_in v L := by
  intro v w hv h
  induction h with
  | single hvw => exact ordered_edge_before adj L hpw hcov hirr _ _ hv hvw
  | tail hprev hedge ih =>
    obtain ⟨hbL, hblt⟩ := ih
    obtain ⟨hwL, hwlt⟩ := ordered_edge_before adj L hpw hcov hirr _ _ hbL hedge
    exact ⟨hwL, Nat.lt_trans hwlt hblt⟩

/-- Dependency names live in the universe. -/
theorem adj_mem_universe (views : List (String × List String)) :
    ∀ x y, y ∈ topo_adjacency views x → y ∈ topo_universe views := by
  intro x y hy
  unfold topo_adjacency at hy
  rcases List.mem_flatten.mp hy with ⟨dl, hdl, hydl⟩
  rcases List.mem_map.mp hdl with ⟨p, hp, rfl⟩
  have hpv : p ∈ views := List.mem_of_mem_filter hp
  unfold topo_universe
  refine List.mem_append.mpr (Or.inr ?_)
  exact List.mem_flatten.mpr ⟨p.2, List.mem_map.mpr ⟨p, hpv, rfl⟩, hydl⟩

/-- Only view names have outgoing edges. -/
theorem adj_source_is_root (views : List (String × List String)) :
    ∀ x y, y ∈ topo_adjacency views x → x ∈ views.map Prod.fst := by
  intro x y hy
  unfold topo_adjacency at hy
  rcases List.mem_flatten.mp hy with ⟨dl, hdl, _⟩
  rcases List.mem_map.mp hdl with ⟨p, hp, rfl⟩
  have hpv : p ∈ views := List.mem_of_mem_filter hp
  have hpx : p.1 = x := by
    have := List.of_mem_filter hp
    simpa using this
  exact hpx ▸ List.mem_map.mpr ⟨p, hpv, rfl⟩

/-- A transitive path has a first edge. -/
theorem transgen_first_edge {r : String → String → Prop} {a c : String}
    (h : Relation.TransGen r a c) : ∃ b, r a b := by
  induction h with
  | single h1 => exact ⟨_, h1⟩
  | tail _ _ ih => exact ih

/-- The initial DFS state is well formed. -/
theorem WFS_initial (adj : String → List String) : WFS adj ⟨[], [], []⟩ := by
  refine ⟨List.nodup_nil, ?_, ?_, List.Pairwise.nil, ?_, ?_⟩ <;>
    simp [DfsState.ordered_view_names, DfsState.permanent_visit_set, DfsState.temporary_visit_set]

/-- When the entry loop of `view_topological_order` succeeds, the reversed
order contains every view and places every transitive dependency strictly
earlier. -/
theorem topoLoop_order_props (views : List (String × List String)) (s : DfsState)
    (hl : topoLoop (topo_adjacency views) ((topo_universe views).length + 1)
      (views.map Prod.fst) ⟨[], [], []⟩ = .ok s) :
    (∀ p, p ∈ views → p.1 ∈ s.ordered_view_names.reverse) ∧
    (∀ v w, v ∈ s.ordered_view_names.reverse →
      Relation.TransGen (depEdge views) v w →
      w ∈ s.ordered_view_names.reverse ∧
      index_in w s.ordered_view_names.reverse < index_in v s.ordered_view_names.reverse) := by
  obtain ⟨hWF, hroots, _, _⟩ :=
    topoLoop_ok (topo_adjacency views) ((topo_universe views).length + 1)
      (views.map Prod.fst) _ _ (WFS_initial _) hl
  obtain ⟨hnd, hiff, hcov, hpw, hirr, _⟩ := hWF
  have hmemL : ∀ x, x ∈ s.ordered_view_names.reverse ↔ x ∈ s.ordered_view_names := by
    intro x
    exact List.mem_reverse
  have hpwL : s.ordered_view_names.reverse.Pairwise
      (fun a b => b ∉ topo_adjacency views a) := by
    rw [List.pairwise_reverse]
    exact hpw
  have hcovL : ∀ v, v ∈ s.ordered_view_names.reverse →
      ∀ w, w ∈ topo_adjacency views v → w ∈ s.ordered_view_names.reverse := by
    intro v hv w hw
    exact (hmemL w).mpr (hcov v ((hmemL v).mp hv) w hw)
  have hirrL : ∀ v, v ∈ s.ordered_view_names.reverse → v ∉ topo_adjacency views v :=
    fun v hv => hirr v ((hmemL v).mp hv)
  constructor
  · intro p hp
    exact (hmemL p.1).mpr ((hiff p.1).mp (hroots p.1 (List.mem_map.mpr ⟨p, hp, rfl⟩)))
  · intro v w hv hreach
    exact ordered_reach_before (topo_adjacency views) _ hpwL hcovL hirrL v w hv
      (by rw [adjEdge_topo]; exact hreach)

/-- The entry loop of `view_topological_order` never exhausts its fuel. -/
theorem topoLoop_no_recursion_limit (views : List (String × List String)) :
    topoLoop (topo_adjacency views) ((topo_universe views).length + 1)
      (views.map Prod.fst) ⟨[], [], []⟩ ≠ .error .recursionLimit := by
  refine topoLoop_fuel (topo_adjacency views) (topo_universe views)
    (adj_mem_universe views) _ (views.map Prod.fst) ⟨[], [], []⟩ ?_ ?_
  · intro n hn
    exact List.mem_append.mpr (Or.inl hn)
  · simp only [DfsState.temporary_visit_set]
    rw [List.toFinset_nil, Finset.sdiff_empty]
    exact Nat.lt_succ_of_le (List.toFinset_card_le _)

/-- C1: for every acyclic dependency graph of loaded views, the order computed
by `view_topological_order` places every view strictly after all views it
transitively depends on: the order is returned successfully, contains every
view, and every transitive dependency of a listed view appears at a strictly
smaller index. -/
theorem view_topological_order_correct (views : List (String × List String))
    (hacyc : ∀ v, ¬ Relation.TransGen (depEdge views) v v) :
    ∃ L, view_topological_order views = .ok L ∧
      (∀ p, p ∈ views → p.1 ∈ L) ∧
      (∀ v w, v ∈ L → Relation.TransGen (depEdge views) v w →
        w ∈ L ∧ index_in w L < index_in v L) := by
  cases hl : topoLoop (topo_adjacency views) ((topo_universe views).length + 1)
      (views.map Prod.fst) ⟨[], [], []⟩ with
  | error e =>
    exfalso
    cases e with
    | circularDependency u =>
      have hcu := topoLoop_cycle _ _ _ _ u rfl hl
      rw [adjEdge_topo] at hcu
      exact hacyc u hcu
    | recursionLimit => exact topoLoop_no_recursion_limit views hl
  | ok s =>
    obtain ⟨hall, hbefore⟩ := topoLoop_order_props views s hl
    refine ⟨s.ordered_view_names.reverse, ?_, hall, hbefore⟩
    unfold view_topological_order
    rw [hl]

/-- C1 witness: the theorem applied to a concrete acyclic one-view graph. -/
theorem view_topological_order_correct_witness :
    ∃ L, view_topological_order [("a", [])] = .ok L ∧
      (∀ p, p ∈ [("a", ([] : List String))] → p.1 ∈ L) ∧
      (∀ v w, v ∈ L → Relation.TransGen (depEdge [("a", [])]) v w →
        w ∈ L ∧ index_in w L < index_in v L) := by
  apply view_topological_order_correct
  intro v h
  obtain ⟨b, hb⟩ := transgen_first_edge h
  unfold depEdge topo_adjacency at hb
  rcases List.mem_flatten.mp hb with ⟨dl, hdl, hydl⟩
  rcases List.mem_map.mp hdl with ⟨p, hp, rfl⟩
  have hpv : p ∈ [("a", ([] : List String))] := List.mem_of_mem_filter hp
  rcases List.mem_singleton.mp hpv with rfl
  cases hydl

/-- C3: for a loaded view set whose extracted dependency graph contains a
cycle, `looker_trigger_all` fails with the circular-dependency error naming a
view that lies on a cycle, and the run issues no SQL and leaves the store
untouched: the event trace is empty. -/
theorem cyclic_views_fail_before_sql (ctx : LookerContext) (conn : Connection)
    (store : Store) (pairs : List (String × List String))
    (hp : view_dependency_pairs ctx = .ok pairs)
    (hcyc : ∃ v, Relation.TransGen (depEdge pairs) v v) :
    ∃ u, Relation.TransGen (depEdge pairs) u u ∧
      looker_trigger_all ctx conn store =
        (.error (.topo (.circularDependency u)), store, ([] : List Event)) := by
  obtain ⟨v0, hv0⟩ := hcyc
  cases hl : topoLoop (topo_adjacency pairs) ((topo_universe pairs).length + 1)
      (pairs.map Prod.fst) ⟨[], [], []⟩ with
  | ok s =>
    exfalso
    obtain ⟨hall, hbefore⟩ := topoLoop_order_props pairs s hl
    obtain ⟨b, hb⟩ := transgen_first_edge hv0
    have hroot : v0 ∈ pairs.map Prod.fst := adj_source_is_root pairs v0 b hb
    rcases List.mem_map.mp hroot with ⟨p, hpmem, hpfst⟩
    have hv0L : v0 ∈ s.ordered_view_names.reverse := hpfst ▸ hall p hpmem
    obtain ⟨_, hlt⟩ := hbefore v0 v0 hv0L hv0
    exact Nat.lt_irrefl _ hlt
  | error e =>
    cases e with
    | recursionLimit => exact absurd hl (topoLoop_no_recursion_limit pairs)
    | circularDependency u =>
      have hcu := topoLoop_cycle _ _ _ _ u rfl hl
      rw [adjEdge_topo] at hcu
      refine ⟨u, hcu, ?_⟩
      simp only [looker_trigger_all, context_view_topological_order,
        view_topological_order, hp, hl]

/-- C3 witness: two persisted derived tables referencing each other. -/
theorem cyclic_views_fail_before_sql_witness :
    ∃ u, Relation.TransGen (depEdge [("a", ["b"]), ("b", ["a"])]) u u ∧
      looker_trigger_all
        ⟨"postgresql",
         [⟨"a", some ⟨"select $\x7bb.f\x7d", some "select 1", none, none⟩, none⟩,
          ⟨"b", some ⟨"select $\x7ba.f\x7d", some "select 2", none, none⟩, none⟩]⟩
        ⟨fun _ => .ok []⟩ [] =
        (.error (.topo (.circularDependency u)), ([] : Store), ([] : List Event)) := by
  apply cyclic_views_fail_before_sql
  · rfl
  · refine ⟨"a", Relation.TransGen.head (b := "b") ?_ (Relation.TransGen.single ?_)⟩ <;> decide

/-! ### Concrete fixtures for the driver claims -/

/-- A persisted derived table named `v`. -/
def viewV : ViewObject :=
  ⟨"v", some ⟨"select 1", some "select max_id from t", none, none⟩, none⟩

/-- A context loading only `viewV`. -/
def ctxV : LookerContext := ⟨"postgresql", [viewV]⟩

/-- A warehouse in which the physical table of `viewV` does not exist and
every other statement succeeds. -/
def connNoTable : Connection :=
  ⟨fun stmt =>
    if stmt == has_table_sql_pg "_v" "looker_scratch" then .ok [[Value.bool false]]
    else .ok [[Value.str "r"]]⟩

/-- A warehouse in which the physical table of `viewV` exists and its trigger
query returns the scalar 5. -/
def connTableExists : Connection :=
  ⟨fun stmt =>
    if stmt == has_table_sql_pg "_v" "looker_scratch" then .ok [[Value.bool true]]
    else if stmt == "select max_id from t" then .ok [[Value.str "5"]]
    else .ok []⟩

/-- A warehouse in which creating the scratch schema fails. -/
def connSchemaFail : Connection :=
  ⟨fun stmt =>
    if stmt == "CREATE SCHEMA IF NOT EXISTS looker_scratch;" then .error "permission denied"
    else .ok [[Value.bool true]]⟩

/-- Base views `a` and `b` plus a persisted derived table whose template
references both, and one whose template references only `a`. -/
def viewBaseA : ViewObject := ⟨"a", none, some "ta"⟩

def viewBaseB : ViewObject := ⟨"b", none, some "tb"⟩

def viewTwoRefs : ViewObject :=
  ⟨"c", some ⟨"select $\x7ba.field1\x7d, $\x7bb.field2\x7d", some "select 1", none, none⟩, none⟩

def viewOneRef : ViewObject :=
  ⟨"d", some ⟨"select $\x7ba.field1\x7d", some "select 1", none, none⟩, none⟩

def ctxRefs : LookerContext :=
  ⟨"postgresql", [viewBaseA, viewBaseB, viewTwoRefs, viewOneRef]⟩

/-- Two independent persisted derived tables `a` and `b`. -/
def viewA5 : ViewObject := ⟨"a", some ⟨"select 1", some "tqa", none, none⟩, none⟩

def viewB5 : ViewObject := ⟨"b", some ⟨"select 2", some "tqb", none, none⟩, none⟩

def ctxAB : LookerContext := ⟨"postgresql", [viewA5, viewB5]⟩

/-- A warehouse in which the trigger query of view `a` returns zero rows and
everything else succeeds. -/
def connZeroRows : Connection :=
  ⟨fun stmt =>
    if stmt == "tqa" then .ok []
    else .ok [[Value.bool true]]⟩

/-- C2 (code bug): for a persisted derived table whose physical table does not
exist, the driver skips the trigger-value query entirely and executes the
regeneration DDL, but the subsequent store update reads the never-assigned
local `latest_trigger_value` and raises UnboundLocalError: no trigger value is
persisted.  The spec says the newly observed trigger value is persisted on
successful execution. -/
theorem trigger_view_missing_table_unbound_local :
    ∃ rsql, regenerate_derived_table_sql ctxV viewV = .ok rsql ∧
      trigger_view ctxV connNoTable viewV [] =
        (.error (.unboundLocal "latest_trigger_value"), ([] : Store),
          [Event.sqlExec (has_table_sql_pg "_v" "looker_scratch"), Event.sqlExec rsql]) := by
  exact ⟨_, rfl, rfl⟩

/-- C6 (code bug): the greedy reference pattern applied to a template with two
embedded references captures one span covering both, whose split on the dot
has three parts, so extraction raises ValueError instead of returning the
set of the two view names; with a single reference the extraction works. -/
theorem view_dependencies_two_refs_value_error :
    view_dependencies ctxRefs viewTwoRefs = .error (.valueError "too many values to unpack") ∧
    view_dependencies ctxRefs viewOneRef = .ok ["a"] := by
  exact ⟨rfl, rfl⟩

/-- C9 (code bug): when scratch-schema creation fails before any per-view
transaction has begun, the rollback handler references the never-assigned
local `transaction` and raises UnboundLocalError. -/
theorem rollback_handler_unbound_transaction :
    looker_trigger_all ctxV connSchemaFail [] =
      (.error (.unboundLocal "transaction"), ([] : Store),
        [Event.sqlExec "CREATE SCHEMA IF NOT EXISTS looker_scratch;"]) := by
  rfl

/-! ### Event-shape helpers -/

/-- Every event emitted by `has_table` is a SQL execution. -/
theorem has_table_events (ctx : LookerContext) (conn : Connection) (table schema : String) :
    ∀ e, e ∈ (has_table ctx conn table schema).2 → ∃ s, e = Event.sqlExec s := by
  intro e he
  unfold has_table at he
  cases h1 : has_table_sql ctx table schema with
  | error e0 => simp only [h1] at he; simp at he
  | ok stmt =>
    simp only [h1] at he
    cases h2 : conn.exec stmt with
    | error m =>
      simp only [h2] at he
      simp at he
      exact ⟨stmt, he⟩
    | ok rows =>
      simp only [h2] at he
      rcases rows with _ | ⟨_ | ⟨x, r⟩, rest⟩ <;> (simp at he; exact ⟨stmt, he⟩)

/-- Every event emitted by `get_latest_sql_trigger_value` is a SQL execution. -/
theorem get_latest_events (conn : Connection) (v : ViewObject) :
    ∀ e, e ∈ (get_latest_sql_trigger_value conn v).2 → ∃ s, e = Event.sqlExec s := by
  intro e he
  unfold get_latest_sql_trigger_value at he
  cases h0 : v.derived_table with
  | none => simp only [h0] at he; simp at he
  | some dt =>
    simp only [h0] at he
    cases h1 : dt.sql_trigger_value with
    | none => simp only [h1] at he; simp at he
    | some tq =>
      simp only [h1] at he
      cases h2 : conn.exec tq with
      | error m =>
        simp only [h2] at he
        simp at he
        exact ⟨tq, he⟩
      | ok rows =>
        simp only [h2] at he
        rcases rows with _ | ⟨_ | ⟨x, r⟩, rest⟩ <;> (simp at he; exact ⟨tq, he⟩)

/-- In the regeneration tail, a store write can only happen immediately after
the successful execution of the rendered regeneration DDL, and no commit is
emitted. -/
theorem trigger_view_regenerate_write_shape (ctx : LookerContext) (conn : Connection)
    (v : ViewObject) (store : Store) (latest : Option Value) (evs : List Event)
    (hevs : ∀ e, e ∈ evs → ∃ s, e = Event.sqlExec s) (name : String) (x : Value)
    (h : Event.storeWrite name x ∈ (trigger_view_regenerate ctx conn v store latest evs).2.2) :
    Event.txCommit ∉ (trigger_view_regenerate ctx conn v store latest evs).2.2 ∧
    ∃ rsql pre, regenerate_derived_table_sql ctx v = .ok rsql ∧
      (trigger_view_regenerate ctx conn v store latest evs).2.2 =
        pre ++ [Event.sqlExec rsql, Event.storeWrite name x] := by
  unfold trigger_view_regenerate at h ⊢
  cases hr : regenerate_derived_table_sql ctx v with
  | error e0 =>
    simp only [hr] at h
    obtain ⟨s0, hs0⟩ := hevs _ h
    cases hs0
  | ok rsql =>
    simp only [hr] at h ⊢
    cases he : conn.exec rsql with
    | error m =>
      simp only [he] at h
      rcases List.mem_append.mp h with h2 | h2
      · obtain ⟨s0, hs0⟩ := hevs _ h2
        cases hs0
      · simp at h2
    | ok rows =>
      simp only [he] at h ⊢
      cases latest with
      | none =>
        simp only at h
        rcases List.mem_append.mp h with h2 | h2
        · obtain ⟨s0, hs0⟩ := hevs _ h2
          cases hs0
        · simp at h2
      | some x0 =>
        simp only at h ⊢
        have hx : name = v.view ∧ x = x0 := by
          rcases List.mem_append.mp h with h2 | h2
          · obtain ⟨s0, hs0⟩ := hevs _ h2
            cases hs0
          · rcases List.mem_cons.mp h2 with h3 | h3
            · cases h3
            · rcases List.mem_cons.mp h3 with h4 | h4
              · injection h4 with h5 h6
                exact ⟨h5, h6⟩
              · cases h4
        obtain ⟨rfl, rfl⟩ := hx
        constructor
        · intro hc
          rcases List.mem_append.mp hc with h2 | h2
          · obtain ⟨s0, hs0⟩ := hevs _ h2
            cases hs0
          · simp at h2
        · exact ⟨rsql, evs, rfl, rfl⟩

/-- C4 (amended): whenever `trigger_view` writes a trigger value to the store,
the write happens immediately after the successful execution of the
regeneration DDL and before any commit: the events of the call end with the
regeneration execution followed by the store write, and contain no commit
(the commit is issued by the caller only after `trigger_view` returns). -/
theorem trigger_view_write_after_regen_before_commit (ctx : LookerContext)
    (conn : Connection) (v : ViewObject) (store : Store) (name : String) (x : Value)
    (h : Event.storeWrite name x ∈ (trigger_view ctx conn v store).2.2) :
    Event.txCommit ∉ (trigger_view ctx conn v store).2.2 ∧
    ∃ rsql pre, regenerate_derived_table_sql ctx v = .ok rsql ∧
      (trigger_view ctx conn v store).2.2 =
        pre ++ [Event.sqlExec rsql, Event.storeWrite name x] := by
  unfold trigger_view at h ⊢
  by_cases hpdt : view_is_persisted_derived_table v = false
  · rw [if_pos hpdt] at h
    simp at h
  · rw [if_neg hpdt] at h ⊢
    cases htbl : sql_table_name v with
    | error e0 => simp only [htbl] at h; simp at h
    | ok tbl =>
      simp only [htbl] at h ⊢
      cases hsch : sql_schema_name ctx v with
      | error e0 => simp only [hsch] at h; simp at h
      | ok sch =>
        simp only [hsch] at h ⊢
        cases hht : has_table ctx conn tbl sch with
        | mk r1 evs1 =>
          have hevs1 : ∀ e, e ∈ evs1 → ∃ s, e = Event.sqlExec s := by
            intro e he
            have := has_table_events ctx conn tbl sch e
            rw [hht] at this
            exact this he
          simp only [hht] at h ⊢
          cases r1 with
          | error e0 =>
            simp only at h
            obtain ⟨s0, hs0⟩ := hevs1 _ h
            cases hs0
          | ok ht =>
            by_cases htr : truthy ht
            · simp only [if_pos htr] at h ⊢
              cases hgl : get_latest_sql_trigger_value conn v with
              | mk r2 evs2 =>
                have hevs2 : ∀ e, e ∈ evs2 → ∃ s, e = Event.sqlExec s := by
                  intro e he
                  have := get_latest_events conn v e
                  rw [hgl] at this
                  exact this he
                have hevs12 : ∀ e, e ∈ evs1 ++ evs2 → ∃ s, e = Event.sqlExec s := by
                  intro e he
                  rcases List.mem_append.mp he with h2 | h2
                  · exact hevs1 _ h2
                  · exact hevs2 _ h2
                simp only [hgl] at h ⊢
                cases r2 with
                | error e0 =>
                  simp only at h
                  obtain ⟨s0, hs0⟩ := hevs12 _ h
                  cases hs0
                | ok latest =>
                  cases hsg : store_get store v.view with
                  | none =>
                    simp only [hsg] at h ⊢
                    exact trigger_view_regenerate_write_shape ctx conn v store
                      (some latest) (evs1 ++ evs2) hevs12 name x h
                  | some stored =>
                    simp only [hsg] at h ⊢
                    by_cases heq : (stored == latest) = true
                    · rw [if_pos heq] at h
                      obtain ⟨s0, hs0⟩ := hevs12 _ h
                      cases hs0
                    · rw [if_neg heq] at h ⊢
                      exact trigger_view_regenerate_write_shape ctx conn v store
                        (some latest) (evs1 ++ evs2) hevs12 name x h
            · simp only [if_neg htr] at h ⊢
              exact trigger_view_regenerate_write_shape ctx conn v store none evs1 hevs1
                name x h

/-- Is every store write of the trace preceded by an earlier commit?  The
second argument records whether a commit has been seen. -/
def store_writes_follow_commit : List Event → Bool → Bool
  | [], _ => true
  | Event.storeWrite _ _ :: rest, seen => seen && store_writes_follow_commit rest seen
  | Event.txCommit :: rest, _ => store_writes_follow_commit rest true
  | _ :: rest, seen => store_writes_follow_commit rest seen

/-- C4 counterexample: in a concrete run that regenerates `viewV`, a store
write occurs, and it is not preceded by the commit of its transaction: the
trigger value is persisted before `transaction.commit()` runs, contradicting
the claim that the store update happens after the successful commit. -/
theorem store_write_precedes_commit_counterexample :
    Event.storeWrite "v" (Value.str "5") ∈ (looker_trigger_all ctxV connTableExists []).2.2 ∧
    store_writes_follow_commit (looker_trigger_all ctxV connTableExists []).2.2 false = false := by
  constructor
  · decide
  · rfl

/-- C4 witness: the amended theorem applied to the concrete regenerating run. -/
theorem trigger_view_write_after_regen_before_commit_witness :
    Event.txCommit ∉ (trigger_view ctxV connTableExists viewV []).2.2 ∧
    ∃ rsql pre, regenerate_derived_table_sql ctxV viewV = .ok rsql ∧
      (trigger_view ctxV connTableExists viewV []).2.2 =
        pre ++ [Event.sqlExec rsql, Event.storeWrite "v" (Value.str "5")] := by
  apply trigger_view_write_after_regen_before_commit
  decide

/-- C5 (amended): when the per-view loop fails after at least one transaction
was opened, `trigger_all` catches the exception at the run boundary, rolls
back the last-opened transaction, and returns normally without re-raising;
the resulting events contain nothing beyond those of the failed prefix of the
loop, so no later view is attempted. -/
theorem trigger_all_swallows_failure (ctx : LookerContext) (conn : Connection)
    (store : Store) (order : List String) (cstmt : String) (r0 : List (List Value))
    (e : PyError) (store1 : Store) (evs : List Event)
    (horder : context_view_topological_order ctx = .ok order)
    (hcstmt : create_schema_sql ctx "looker_scratch" = .ok cstmt)
    (hexec : conn.exec cstmt = .ok r0)
    (hloop : trigger_all_loop ctx conn order store none = (.error e, store1, evs, some ())) :
    looker_trigger_all ctx conn store =
      (.ok (), store1, Event.sqlExec cstmt :: (evs ++ [Event.txRollback])) := by
  unfold looker_trigger_all
  simp only [horder, hcstmt, hexec, hloop]

/-- C5 counterexample: the trigger query of view `a` returns zero rows, so
processing `a` fails; yet the whole run returns successfully (the claim says
the exception is re-raised at the run boundary), and view `b` is never
examined. -/
theorem trigger_all_swallow_counterexample :
    (looker_trigger_all ctxAB connZeroRows []).1 = .ok () ∧
    (trigger_view ctxAB connZeroRows viewA5 []).1 =
      .error (.exceptionMsg "Looker sql_trigger_value query did not return any value") ∧
    Event.sqlExec (has_table_sql_pg "_b" "looker_scratch") ∉
      (looker_trigger_all ctxAB connZeroRows []).2.2 := by
  refine ⟨rfl, rfl, ?_⟩
  decide

/-- C5 witness: the amended theorem applied to the failing concrete run. -/
theorem trigger_all_swallows_failure_witness :
    looker_trigger_all ctxAB connZeroRows [] =
      (.ok (), ([] : Store),
        Event.sqlExec "CREATE SCHEMA IF NOT EXISTS looker_scratch;" ::
          ([Event.txBegin, Event.sqlExec (has_table_sql_pg "_a" "looker_scratch"),
            Event.sqlExec "tqa"] ++ [Event.txRollback])) := by
  exact trigger_all_swallows_failure ctxAB connZeroRows [] ["a", "b"]
    "CREATE SCHEMA IF NOT EXISTS looker_scratch;" [[Value.bool true]]
    (.exceptionMsg "Looker sql_trigger_value query did not return any value") []
    [Event.txBegin, Event.sqlExec (has_table_sql_pg "_a" "looker_scratch"),
      Event.sqlExec "tqa"] rfl rfl rfl rfl

/-- The trigger-scalar rule as the specification states it: zero rows fail
with the query error, otherwise the first column of the first row is the
trigger value (a first row without columns is an index error, a case outside
the specification, which expects exactly one scalar). -/
def spec_trigger_scalar (rows : List (List Value)) : Except PyError Value :=
  match rows with
  | [] => .error (.exceptionMsg "Looker sql_trigger_value query did not return any value")
  | [] :: _ => .error .indexError
  | (x :: _) :: _ => .ok x

/-- C7: evaluating the trigger query of a persisted derived table raises the
query error when the query returns zero rows, and returns the first column of
the first row otherwise, exactly as the specification-side rule states; the
query is executed exactly once. -/
theorem get_latest_trigger_matches_spec (conn : Connection) (v : ViewObject)
    (dt : DerivedTable) (tq : String) (rows : List (List Value))
    (hdt : v.derived_table = some dt) (htq : dt.sql_trigger_value = some tq)
    (hexec : conn.exec tq = .ok rows) :
    (get_latest_sql_trigger_value conn v).1 = spec_trigger_scalar rows ∧
    (get_latest_sql_trigger_value conn v).2 = [Event.sqlExec tq] := by
  unfold get_latest_sql_trigger_value spec_trigger_scalar
  simp only [hdt, htq, hexec]
  rcases rows with _ | ⟨_ | ⟨x, r⟩, rest⟩ <;> exact ⟨rfl, rfl⟩

/-- C7 witness: a one-row result yields its first column. -/
theorem get_latest_trigger_matches_spec_witness :
    (get_latest_sql_trigger_value connTableExists viewV).1 =
      spec_trigger_scalar [[Value.str "5"]] ∧
    (get_latest_sql_trigger_value connTableExists viewV).2 =
      [Event.sqlExec "select max_id from t"] := by
  exact get_latest_trigger_matches_spec connTableExists viewV
    ⟨"select 1", some "select max_id from t", none, none⟩ "select max_id from t"
    [[Value.str "5"]] rfl rfl rfl

/-- C8: for a persisted derived table whose physical table exists and whose
stored trigger value equals the freshly queried one, `trigger_view` performs
no action: it returns successfully, the store is unchanged, and the only SQL
executed is the existence check and the trigger query (no regeneration). -/
theorem trigger_view_fresh_no_action (ctx : LookerContext) (conn : Connection)
    (v : ViewObject) (store : Store) (dt : DerivedTable) (tq : String) (x t : Value)
    (r1 : List Value) (rows1 : List (List Value)) (r2 : List Value)
    (rows2 : List (List Value))
    (hdt : v.derived_table = some dt)
    (htq : dt.sql_trigger_value = some tq)
    (hdialect : ctx.sql_dialect = "postgresql")
    (hht : conn.exec (has_table_sql_pg ("_" ++ v.view) "looker_scratch") =
      .ok ((x :: r1) :: rows1))
    (hx : truthy x = true)
    (htqr : conn.exec tq = .ok ((t :: r2) :: rows2))
    (hstored : store_get store v.view = some t) :
    trigger_view ctx conn v store =
      (.ok (), store,
        [Event.sqlExec (has_table_sql_pg ("_" ++ v.view) "looker_scratch"),
         Event.sqlExec tq]) := by
  have hder : view_is_derived_table v = true := by
    unfold view_is_derived_table
    rw [hdt]
    rfl
  have hpdt : view_is_persisted_derived_table v = true := by
    simp [view_is_persisted_derived_table, hdt, htq]
  have htbl : sql_table_name v = .ok ("_" ++ v.view) := by
    simp [sql_table_name, hder]
  have hsch : sql_schema_name ctx v = .ok "looker_scratch" := by
    simp [sql_schema_name, hder]
  have hhtr : has_table ctx conn ("_" ++ v.view) "looker_scratch" =
      (.ok x, [Event.sqlExec (has_table_sql_pg ("_" ++ v.view) "looker_scratch")]) := by
    simp [has_table, has_table_sql, hdialect, hht]
  have hgl : get_latest_sql_trigger_value conn v = (.ok t, [Event.sqlExec tq]) := by
    simp [get_latest_sql_trigger_value, hdt, htq, htqr]
  unfold trigger_view
  simp [hpdt, htbl, hsch, hhtr, hgl, hstored, hx]

/-- C8 witness: a fresh view is skipped with the store unchanged. -/
theorem trigger_view_fresh_no_action_witness :
    trigger_view ctxV connTableExists viewV [("v", Value.str "5")] =
      (.ok (), [("v", Value.str "5")],
        [Event.sqlExec (has_table_sql_pg "_v" "looker_scratch"),
         Event.sqlExec "select max_id from t"]) := by
  exact trigger_view_fresh_no_action ctxV connTableExists viewV [("v", Value.str "5")]
    ⟨"select 1", some "select max_id from t", none, none⟩ "select max_id from t"
    (Value.bool true) (Value.str "5") [] [] [] [] rfl rfl rfl rfl rfl rfl rfl

/-- A warehouse whose trigger query and existence check both return two rows. -/
def connMultiRow : Connection :=
  ⟨fun stmt =>
    if stmt == "select max_id from t" then .ok [[Value.str "5"], [Value.str "6"]]
    else .ok [[Value.bool true], [Value.bool false]]⟩

/-- C10: when the trigger query or the table-existence query returns more than
one row, no error is raised: the first column of the first row is used and the
remaining rows are ignored. -/
theorem multi_row_results_use_first_row (ctx : LookerContext) (conn : Connection)
    (v : ViewObject) (dt : DerivedTable) (tq : String) (table schema : String)
    (x : Value) (r1 : List Value) (row2 : List Value) (rows : List (List Value))
    (y : Value) (s1 : List Value) (row2b : List Value) (rowsb : List (List Value))
    (hdt : v.derived_table = some dt)
    (htq : dt.sql_trigger_value = some tq)
    (hdialect : ctx.sql_dialect = "postgresql")
    (h1 : conn.exec tq = .ok ((x :: r1) :: row2 :: rows))
    (h2 : conn.exec (has_table_sql_pg table schema) = .ok ((y :: s1) :: row2b :: rowsb)) :
    (get_latest_sql_trigger_value conn v).1 = .ok x ∧
    (has_table ctx conn table schema).1 = .ok y := by
  constructor
  · simp [get_latest_sql_trigger_value, hdt, htq, h1]
  · simp [has_table, has_table_sql, hdialect, h2]

/-- C10 witness: two-row results are accepted and the second rows ignored. -/
theorem multi_row_results_use_first_row_witness :
    (get_latest_sql_trigger_value connMultiRow viewV).1 = .ok (Value.str "5") ∧
    (has_table ctxV connMultiRow "_v" "looker_scratch").1 = .ok (Value.bool true) := by
  exact multi_row_results_use_first_row ctxV connMultiRow viewV
    ⟨"select 1", some "select max_id from t", none, none⟩ "select max_id from t"
    "_v" "looker_scratch" (Value.str "5") [] [Value.str "6"] []
    (Value.bool true) [] [Value.bool false] [] rfl rfl rfl rfl rfl

end LookerEmulator
